import Mathlib

/-!
Verification development for the Postman-flavoured Monaco JSON language support:
the incremental line tokenizer with `\x7b\x7bvar\x7d\x7d` placeholder detection
(`src/language/json/tokenization.ts`) and the range-aware JSON formatter.

Texts are embedded as `List Char`; the external `jsonc-parser` grammar scanner
(an out-of-repo dependency, specified in the spec only by its interface
`createScanner / scan / getTokenOffset / getTokenLength / getTokenError /
setPosition`) is modelled from the spec by `scanOne` below.  All repository
functions keep their source names.
-/

/-- Token kinds of the external grammar scanner (jsonc-parser `SyntaxKind`). -/
inductive SyntaxKind where
  | openBraceToken
  | closeBraceToken
  | openBracketToken
  | closeBracketToken
  | commaToken
  | colonToken
  | nullKeyword
  | trueKeyword
  | falseKeyword
  | stringLiteral
  | numericLiteral
  | lineCommentTrivia
  | blockCommentTrivia
  | lineBreakTrivia
  | trivia
  | unknown
  | eof
deriving DecidableEq, Repr

/-- Scan error codes of the external grammar scanner (jsonc-parser `ScanError`). -/
inductive ScanError where
  | none
  | unexpectedEndOfComment
  | unexpectedEndOfString
  | unexpectedEndOfNumber
  | invalidUnicode
  | invalidEscapeCharacter
  | invalidCharacter
deriving DecidableEq, Repr

def isWhiteSpaceChar (c : Char) : Bool := c == ' ' || c == '\t'

def isLineBreakChar (c : Char) : Bool := c == '\n' || c == '\r'

def isDigitChar (c : Char) : Bool := '0' ≤ c && c ≤ '9'

def isHexDigitChar (c : Char) : Bool :=
  isDigitChar c || ('a' ≤ c && c ≤ 'f') || ('A' ≤ c && c ≤ 'F')

/-- jsonc-parser `isUnknownContentCharacter`: everything except whitespace,
line breaks and the structural characters. -/
def isUnknownContentChar (c : Char) : Bool :=
  !(isWhiteSpaceChar c || isLineBreakChar c ||
    c == '{' || c == '}' || c == '[' || c == ']' || c == '"' ||
    c == ':' || c == ',' || c == '/')

def countWhile (p : Char → Bool) : List Char → Nat
  | [] => 0
  | c :: cs => if p c then countWhile p cs + 1 else 0

/-- Number of leading hex digits, capped at `cap` (jsonc-parser
`scanHexDigits(cap, true)` consumes exactly this many characters). -/
def hexRun : List Char → Nat → Nat
  | _, 0 => 0
  | [], _ + 1 => 0
  | c :: cs, n + 1 => if isHexDigitChar c then hexRun cs n + 1 else 0

def validEscapeChar (c : Char) : Bool :=
  c == '"' || c == '\\' || c == '/' || c == 'b' || c == 'f' ||
  c == 'n' || c == 'r' || c == 't'

/-- Modelled from the spec: jsonc-parser `scanString`, starting just after the
opening quote.  Returns the number of consumed characters (including a closing
quote, when present) and the resulting scan error.  The fuel (one unit per
consumed character, always passed as the remaining length plus one, which the
loop cannot exhaust) keeps the recursion structural. -/
def scanStringAux : Nat → List Char → ScanError → Nat × ScanError
  | 0, _, err => (0, err)
  | _ + 1, [], _ => (0, ScanError.unexpectedEndOfString)
  | fuel + 1, c :: cs, err =>
    if c == '"' then (1, err)
    else if c == '\\' then
      match cs with
      | [] => (1, ScanError.unexpectedEndOfString)
      | e :: cs2 =>
        if e == 'u' then
          let k := hexRun cs2 4
          let err1 := if k == 4 then err else ScanError.invalidUnicode
          let r := scanStringAux fuel (cs2.drop k) err1
          (2 + k + r.1, r.2)
        else
          let err1 := if validEscapeChar e then err else ScanError.invalidEscapeCharacter
          let r := scanStringAux fuel cs2 err1
          (2 + r.1, r.2)
    else if isLineBreakChar c then (0, ScanError.unexpectedEndOfString)
    else
      let err1 := if c.toNat ≤ 31 then ScanError.invalidCharacter else err
      let r := scanStringAux fuel cs err1
      (1 + r.1, r.2)

/-- Fractional part of jsonc-parser `scanNumber`: consumed characters, error,
and whether the scan returns immediately (malformed fraction). -/
def fracPart : List Char → Nat × ScanError × Bool
  | '.' :: rest =>
    match rest with
    | d :: rest2 =>
      if isDigitChar d then (1 + 1 + countWhile isDigitChar rest2, ScanError.none, false)
      else (1, ScanError.unexpectedEndOfNumber, true)
    | [] => (1, ScanError.unexpectedEndOfNumber, true)
  | _ => (0, ScanError.none, false)

/-- Exponent part of jsonc-parser `scanNumber`: consumed characters and error.
The `e`/`E` and an optional sign are consumed even when no digits follow. -/
def expPart : List Char → Nat × ScanError
  | [] => (0, ScanError.none)
  | c :: rest =>
    if c == 'e' || c == 'E' then
      match rest with
      | [] => (1, ScanError.unexpectedEndOfNumber)
      | s :: rest2 =>
        if s == '+' || s == '-' then
          match rest2 with
          | [] => (2, ScanError.unexpectedEndOfNumber)
          | d :: rest3 =>
            if isDigitChar d then (2 + 1 + countWhile isDigitChar rest3, ScanError.none)
            else (2, ScanError.unexpectedEndOfNumber)
        else if isDigitChar s then (1 + 1 + countWhile isDigitChar rest2, ScanError.none)
        else (1, ScanError.unexpectedEndOfNumber)
    else (0, ScanError.none)

/-- jsonc-parser `scanNumber`, starting at the first digit. -/
def numberLen (cs : List Char) : Nat × ScanError :=
  let intLen : Nat :=
    match cs with
    | [] => 0
    | '0' :: _ => 1
    | _ :: rest => 1 + countWhile isDigitChar rest
  let f := fracPart (cs.drop intLen)
  if f.2.2 then (intLen + f.1, f.2.1)
  else
    let e := expPart (cs.drop (intLen + f.1))
    (intLen + f.1 + e.1, e.2)

/-- Body of a block comment, starting right after the opening `/*`:
consumed characters and whether the comment was closed.  Mirrors the
jsonc-parser loop bounded by `len - 1` with the final `pos++` on failure. -/
def blockCommentLen : List Char → Nat × Bool
  | '*' :: '/' :: _ => (2, true)
  | [] => (1, false)
  | [_] => (1, false)
  | _ :: rest =>
    let r := blockCommentLen rest
    (1 + r.1, r.2)

/-- One scanner step: the token kind, its start offset, the position after the
token, and the token error. -/
structure ScanResult where
  kind : SyntaxKind
  tokenOffset : Nat
  pos : Nat
  err : ScanError
deriving DecidableEq, Repr

def keywordKind (w : List Char) : SyntaxKind :=
  if w = "true".toList then SyntaxKind.trueKeyword
  else if w = "false".toList then SyntaxKind.falseKeyword
  else if w = "null".toList then SyntaxKind.nullKeyword
  else SyntaxKind.unknown

/-- Modelled from the spec: one `scan()` call of the external grammar scanner
(jsonc-parser `createScanner(text, false)`), reading the token starting at
`pos`.  `setPosition(p)` is modelled by calling `scanOne text p` (it also
resets the token error to `ScanError.none`, which callers account for). -/
def scanOne (text : List Char) (pos : Nat) : ScanResult :=
  match text.drop pos with
  | [] => ⟨SyntaxKind.eof, text.length, pos, ScanError.none⟩
  | c :: cs =>
    if isWhiteSpaceChar c then
      ⟨SyntaxKind.trivia, pos, pos + 1 + countWhile isWhiteSpaceChar cs, ScanError.none⟩
    else if isLineBreakChar c then
      let n : Nat := if c == '\r' && cs.head? == some '\n' then 2 else 1
      ⟨SyntaxKind.lineBreakTrivia, pos, pos + n, ScanError.none⟩
    else if c == '{' then ⟨SyntaxKind.openBraceToken, pos, pos + 1, ScanError.none⟩
    else if c == '}' then ⟨SyntaxKind.closeBraceToken, pos, pos + 1, ScanError.none⟩
    else if c == '[' then ⟨SyntaxKind.openBracketToken, pos, pos + 1, ScanError.none⟩
    else if c == ']' then ⟨SyntaxKind.closeBracketToken, pos, pos + 1, ScanError.none⟩
    else if c == ':' then ⟨SyntaxKind.colonToken, pos, pos + 1, ScanError.none⟩
    else if c == ',' then ⟨SyntaxKind.commaToken, pos, pos + 1, ScanError.none⟩
    else if c == '"' then
      let r := scanStringAux (cs.length + 1) cs ScanError.none
      ⟨SyntaxKind.stringLiteral, pos, pos + 1 + r.1, r.2⟩
    else if c == '/' then
      match cs with
      | '/' :: rest =>
        ⟨SyntaxKind.lineCommentTrivia, pos,
          pos + 2 + countWhile (fun x => !(isLineBreakChar x)) rest, ScanError.none⟩
      | '*' :: rest =>
        let r := blockCommentLen rest
        ⟨SyntaxKind.blockCommentTrivia, pos, pos + 2 + r.1,
          if r.2 then ScanError.none else ScanError.unexpectedEndOfComment⟩
      | _ => ⟨SyntaxKind.unknown, pos, pos + 1, ScanError.none⟩
    else if c == '-' then
      match cs with
      | [] => ⟨SyntaxKind.unknown, pos, pos + 1, ScanError.none⟩
      | d :: _ =>
        if isDigitChar d then
          let r := numberLen cs
          ⟨SyntaxKind.numericLiteral, pos, pos + 1 + r.1, r.2⟩
        else ⟨SyntaxKind.unknown, pos, pos + 1, ScanError.none⟩
    else if isDigitChar c then
      let r := numberLen (c :: cs)
      ⟨SyntaxKind.numericLiteral, pos, pos + r.1, r.2⟩
    else
      let n := countWhile isUnknownContentChar (c :: cs)
      if n == 0 then ⟨SyntaxKind.unknown, pos, pos + 1, ScanError.none⟩
      else ⟨keywordKind ((c :: cs).take n), pos, pos + n, ScanError.none⟩

/-! ## Tokenization data model (`src/language/json/tokenization.ts`) -/

def TOKEN_DELIM_OBJECT : String := "delimiter.bracket.json"
def TOKEN_DELIM_ARRAY : String := "delimiter.array.json"
def TOKEN_DELIM_COLON : String := "delimiter.colon.json"
def TOKEN_DELIM_COMMA : String := "delimiter.comma.json"
def TOKEN_VALUE_BOOLEAN : String := "keyword.json"
def TOKEN_VALUE_NULL : String := "keyword.json"
def TOKEN_VALUE_STRING : String := "string.value.json"
def TOKEN_VALUE_NUMBER : String := "number.json"
def TOKEN_PROPERTY_NAME : String := "string.key.json"
def TOKEN_COMMENT_BLOCK : String := "comment.block.json"
def TOKEN_COMMENT_LINE : String := "comment.line.json"
def TOKEN_POSTMAN_VARIABLE : String := "postman.variable.json"
def TOKEN_POSTMAN_VARIABLE_IN_STRING : String := "postman.variable.string.json"

inductive JSONParent where
  | object
  | array
deriving DecidableEq, Repr

/-- An emitted token.  Monaco tokens carry `startIndex` and `scopes`;
the placeholder scanner additionally records an `endIndex` on the tokens it
synthesizes (absent on its trailing filler token). -/
structure Token where
  startIndex : Int
  scopes : String
  endIndex : Option Int
deriving DecidableEq, Repr

/-! The linked `ParentsStack` of the source, embedded as a persistent list,
head = top of the stack. `[]` plays the role of the `null` stack. -/

namespace ParentsStack

def pop : List JSONParent → List JSONParent
  | [] => []
  | _ :: rest => rest

def push (parents : List JSONParent) (type : JSONParent) : List JSONParent :=
  type :: parents

/-- The `while (a && b)` walk of `ParentsStack.equals`: compare types frame by
frame; report `true` as soon as either chain runs out.  The source's
pointer-equality short-circuit (`a === b → true`) is an optimization that can
fire only when the remaining chains are identical, in which case this walk
returns `true` as well. -/
def eqWalk : List JSONParent → List JSONParent → Bool
  | a :: as, b :: bs => a == b && eqWalk as bs
  | _, _ => true

def equals (a b : List JSONParent) : Bool :=
  match a, b with
  | [], [] => true
  | [], _ :: _ => false
  | _ :: _, [] => false
  | _ :: _, _ :: _ => eqWalk a b

end ParentsStack

/-- `JSONState` of the source.  `scanError` is `Option` because the initial
state carries `null` while every state produced by `tokenize` carries a real
(possibly `None`) scanner error code; `===` distinguishes the two.  The opaque
embedded `_state` (monaco chaining data) is ignored by `equals` and is not
modelled. -/
structure JSONState where
  scanError : Option ScanError
  lastWasColon : Bool
  parents : List JSONParent
deriving DecidableEq, Repr

def JSONState.equals (a b : JSONState) : Bool :=
  a.scanError == b.scanError && a.lastWasColon == b.lastWasColon &&
    ParentsStack.equals a.parents b.parents

def getInitialState : JSONState := ⟨none, false, []⟩

/-! ## `createPostmanVariableScanner` -/

/-- The inner pop-loop on a `}}`: pop entries pairwise looking for two stack
entries with adjacent start offsets (the innermost `{{`).  Returns the matched
start and the rest of the stack, or `none` when the stack is exhausted
(in which case the source has discarded every popped entry). -/
def findAdjacentPair (current : Int) : List Int → Option (Int × List Int)
  | [] => none
  | n :: rest => if current == n + 1 then some (n, rest) else findAdjacentPair n rest

/-- The character walk of `createPostmanVariableScanner`: push a stack entry at
each `{`, on `}}` run `findAdjacentPair`; a successful match emits a token
(scope assigned at match time) and skips the second `}`, a failed match leaves
the stack empty. -/
def bracketScanLoop (offset : Int) (scope : String) :
    List Char → Nat → List Int → List Token → List Token
  | [], _, _, matched => matched
  | [c], pos, stack, matched =>
    if c == '{' then
      bracketScanLoop offset scope [] (pos + 1) ((offset + (pos : Int)) :: stack) matched
    else bracketScanLoop offset scope [] (pos + 1) stack matched
  | c :: c2 :: rest2, pos, stack, matched =>
    if c == '{' then
      bracketScanLoop offset scope (c2 :: rest2) (pos + 1)
        ((offset + (pos : Int)) :: stack) matched
    else if c == '}' && c2 == '}' then
      match stack with
      | [] => bracketScanLoop offset scope (c2 :: rest2) (pos + 1) [] matched
      | c0 :: st =>
        match findAdjacentPair c0 st with
        | some (n, st2) =>
          bracketScanLoop offset scope rest2 (pos + 2) st2
            (matched ++ [⟨n, scope, some (offset + (pos : Int) + 1)⟩])
        | none => bracketScanLoop offset scope (c2 :: rest2) (pos + 1) [] matched
    else bracketScanLoop offset scope (c2 :: rest2) (pos + 1) stack matched

/-- `matchedBrackets.sort((a, b) => a.startIndex - b.startIndex)` (start
indexes are pairwise distinct, so any sort gives the same list). -/
def insertTokenByStart (t : Token) : List Token → List Token
  | [] => [t]
  | x :: xs =>
    if t.startIndex < x.startIndex then t :: x :: xs else x :: insertTokenByStart t xs

def sortTokensByStart : List Token → List Token
  | [] => []
  | x :: xs => insertTokenByStart x (sortTokensByStart xs)

/-- Remove nested brackets: keep a match only when it starts after the end of
the last kept match. -/
def filterNested : List Token → Int → List Token
  | [], _ => []
  | t :: ts, lastEnd =>
    if t.startIndex > lastEnd then t :: filterNested ts (t.endIndex.getD 0)
    else filterNested ts lastEnd

/-- The result-building loop over the filtered matches: emit each match whose
start lies beyond the last created token, and (inside strings) filler tokens
for the text between two matches.  Returns the results and the final
`endIndexLastTokenCreated`. -/
def buildResults (inString : Bool) (fillerScope : String) :
    List Token → Int → List Token × Int
  | [], endLast => ([], endLast)
  | current :: rest, endLast =>
    let pushCur := endLast < current.startIndex
    let acc : List Token := if pushCur then [current] else []
    let endLast1 := if pushCur then current.endIndex.getD 0 else endLast
    match rest with
    | [] => (acc, endLast1)
    | next :: _ =>
      if next.startIndex == current.endIndex.getD 0 + 1 then
        let r := buildResults inString fillerScope rest endLast1
        (acc ++ r.1, r.2)
      else
        let filler : List Token :=
          if inString then
            [⟨current.endIndex.getD 0 + 1, fillerScope, some (next.startIndex - 1)⟩]
          else []
        let r := buildResults inString fillerScope rest (next.startIndex - 1)
        (acc ++ filler ++ r.1, r.2)

def createPostmanVariableScanner (stringLiteral : List Char) (offset : Int)
    (inValue : Bool) (inString : Bool) : List Token :=
  let scope := if inString then TOKEN_POSTMAN_VARIABLE_IN_STRING else TOKEN_POSTMAN_VARIABLE
  let matchedBrackets := bracketScanLoop offset scope stringLiteral 0 [] []
  match matchedBrackets with
  | [] => []
  | _ :: _ =>
    let filteredBrackets := filterNested (sortTokensByStart matchedBrackets) (-1)
    let fillerScope := if inValue then TOKEN_VALUE_STRING else TOKEN_PROPERTY_NAME
    let lead : List Token × Int :=
      match filteredBrackets with
      | [] => ([], -1)
      | f :: _ =>
        if inString && f.startIndex != offset then
          ([⟨offset, fillerScope, some (f.startIndex - 1)⟩], f.startIndex - 1)
        else ([], -1)
    let r := buildResults inString fillerScope filteredBrackets lead.2
    let trail : List Token :=
      if r.2 < offset + (stringLiteral.length : Int) && inString then
        [⟨r.2 + 1, fillerScope, none⟩]
      else []
    lead.1 ++ r.1 ++ trail

/-! ## `findClosestDelimiter` -/

/-- JS `hay.indexOf(pat)` over char lists: first index where `pat` occurs,
`-1` when it does not (the empty pattern occurs at index 0). -/
def matchesAt : List Char → List Char → Bool
  | _, [] => true
  | [], _ :: _ => false
  | c :: cs, p :: ps => c == p && matchesAt cs ps

def subIndexOf (s pat : List Char) : Int :=
  if matchesAt s pat then 0
  else
    match s with
    | [] => -1
    | _ :: rest =>
      let r := subIndexOf rest pat
      if r == -1 then -1 else r + 1

/-- The running-least fold of `findClosestDelimiter`; `none` plays the role of
`Infinity`. -/
def goLeast (s : List Char) : List String → Option Nat → Option Nat
  | [], least => least
  | d :: ds, least =>
    let index := subIndexOf s d.toList
    let takeIt : Bool :=
      (match least with
       | none => true
       | some l => (l : Int) > index) && index > -1
    goLeast s ds (if takeIt then some index.toNat else least)

def findClosestDelimiter (stringLiteral : List Char) (delimiter : List String) : Int :=
  if delimiter.length == 0 then -1
  else
    match goLeast stringLiteral delimiter none with
    | some i => (i : Int)
    | none => -1

/-! ## `tokenize` -/

structure LineTokens where
  tokens : List Token
  endState : JSONState
deriving DecidableEq, Repr

/-- The outcome of one iteration of `tokenize`'s scan loop: the loop
variables for the next iteration, the tokens this iteration appends (after
`popLast` has removed the previously queued open-brace token, in the
placeholder branch), and the `endState` recorded by this iteration. -/
structure TokStep where
  pos : Nat
  lastWasColon : Bool
  parents : List JSONParent
  openBracesCount : Nat
  adjustOffset : Bool
  popLast : Bool
  newTokens : List Token
  endState : JSONState
deriving DecidableEq, Repr

/-- One iteration of the `tokenize` scan loop; `none` ends the loop (EOF, or
the scanner-did-not-advance condition on which the source throws).  In the
placeholder branch, `scanner.setPosition(endIndex + 1)` resets the scanner
error, so the state recorded for that iteration carries `ScanError.none`. -/
def tokenizeStep (comments : Bool) (line : List Char) (inserted : Nat)
    (offsetDelta : Int) (languageId : Option String) (pos : Nat) (lastWasColon : Bool)
    (parents : List JSONParent) (openBracesCount : Nat) (adjustOffset : Bool) :
    Option TokStep :=
  let r := scanOne line pos
  if r.kind == SyntaxKind.eof then none
  else if r.pos == pos then none
  else
    let offset : Int :=
      if adjustOffset then offsetDelta + (pos : Int) - (inserted : Int)
      else offsetDelta + (pos : Int)
    let adjustOffset1 := inserted != 0
    let openBraces1 := if r.kind == SyntaxKind.openBraceToken then openBracesCount + 1 else 0
    let emit (type : String) (lwc1 : Bool) (parents1 : List JSONParent)
        (pvs : List Token) : Option TokStep :=
      some ⟨r.pos, lwc1, parents1, openBraces1, adjustOffset1, false,
        [⟨offset, type, none⟩] ++ pvs, ⟨some r.err, lwc1, parents1⟩⟩
    match r.kind with
    | SyntaxKind.openBraceToken =>
      let parents1 := ParentsStack.push parents JSONParent.object
      if openBraces1 == 2 && languageId == some "postman_json" then
        let stringFromDoubleBraces := (line.drop (r.pos - 2)) ++ ['\n']
        let delimiterIndex :=
          findClosestDelimiter stringFromDoubleBraces [",", ":", "]", "\n"]
        if delimiterIndex ≥ 0 then
          let delimitedString := stringFromDoubleBraces.take delimiterIndex.toNat
          let ptoks := createPostmanVariableScanner delimitedString (offset - 1)
            lastWasColon false
          match ptoks with
          | [] => emit "" false parents1 []
          | _ :: _ =>
            let lastTok := ptoks.getLast?.getD ⟨0, "", none⟩
            let newPos := (lastTok.endIndex.getD 0 + 1).toNat
            let parents2 := ParentsStack.pop (ParentsStack.pop parents1)
            some ⟨newPos, false, parents2, openBraces1, adjustOffset1, true, ptoks,
              ⟨some ScanError.none, false, parents2⟩⟩
        else emit TOKEN_DELIM_OBJECT false parents1 []
      else emit TOKEN_DELIM_OBJECT false parents1 []
    | SyntaxKind.closeBraceToken =>
      emit TOKEN_DELIM_OBJECT false (ParentsStack.pop parents) []
    | SyntaxKind.openBracketToken =>
      emit TOKEN_DELIM_ARRAY false (ParentsStack.push parents JSONParent.array) []
    | SyntaxKind.closeBracketToken =>
      emit TOKEN_DELIM_ARRAY false (ParentsStack.pop parents) []
    | SyntaxKind.colonToken => emit TOKEN_DELIM_COLON true parents []
    | SyntaxKind.commaToken => emit TOKEN_DELIM_COMMA false parents []
    | SyntaxKind.trueKeyword => emit TOKEN_VALUE_BOOLEAN false parents []
    | SyntaxKind.falseKeyword => emit TOKEN_VALUE_BOOLEAN false parents []
    | SyntaxKind.nullKeyword => emit TOKEN_VALUE_NULL false parents []
    | SyntaxKind.stringLiteral =>
      let currentParent := parents.head?.getD JSONParent.object
      let inArray := currentParent == JSONParent.array
      let inValue := lastWasColon || inArray
      let tokenValue := (line.drop (r.tokenOffset + 1)).take (r.pos - r.tokenOffset - 2)
      let pvs :=
        if languageId == some "postman_json" then
          createPostmanVariableScanner tokenValue (offset + 1) inValue true
        else []
      let type := if inValue || inArray then TOKEN_VALUE_STRING else TOKEN_PROPERTY_NAME
      emit type false parents pvs
    | SyntaxKind.numericLiteral => emit TOKEN_VALUE_NUMBER false parents []
    | SyntaxKind.lineCommentTrivia =>
      emit (if comments then TOKEN_COMMENT_LINE else "") lastWasColon parents []
    | SyntaxKind.blockCommentTrivia =>
      emit (if comments then TOKEN_COMMENT_BLOCK else "") lastWasColon parents []
    | _ => emit "" lastWasColon parents []

/-- The scan loop of `tokenize`: iterate `tokenizeStep`, appending its tokens
(removing the queued token first when the placeholder branch retracts it).
One fuel unit per scanner token; the fuel passed by `tokenize` dominates the
line length, so it never runs out (every scan advances the position). -/
def tokenizeLoop (comments : Bool) (line : List Char) (inserted : Nat)
    (offsetDelta : Int) (languageId : Option String) :
    Nat → Nat → Bool → List JSONParent → Nat → Bool → List Token → JSONState → LineTokens
  | 0, _, _, _, _, _, tokens, endState => ⟨tokens, endState⟩
  | fuel + 1, pos, lastWasColon, parents, openBracesCount, adjustOffset, tokens, endState =>
    match tokenizeStep comments line inserted offsetDelta languageId pos lastWasColon
        parents openBracesCount adjustOffset with
    | none => ⟨tokens, endState⟩
    | some s =>
      tokenizeLoop comments line inserted offsetDelta languageId fuel s.pos s.lastWasColon
        s.parents s.openBracesCount s.adjustOffset
        ((if s.popLast then tokens.dropLast else tokens) ++ s.newTokens) s.endState

/-- `tokenize` of `src/language/json/tokenization.ts`.  When the prior state
ends in an unterminated string (resp. block comment), a synthetic `"` (resp.
`/*`) is prepended and all offsets except the first token's are shifted back
by the inserted count. -/
def tokenize (comments : Bool) (line : String) (state : JSONState)
    (offsetDelta : Int) (languageId : Option String) : LineTokens :=
  let p : List Char × Nat :=
    match state.scanError with
    | some ScanError.unexpectedEndOfString => ('"' :: line.toList, 1)
    | some ScanError.unexpectedEndOfComment => ('/' :: '*' :: line.toList, 2)
    | _ => (line.toList, 0)
  tokenizeLoop comments p.1 p.2 offsetDelta languageId (p.1.length + 4) 0
    state.lastWasColon state.parents 0 false [] state

/-! ## Formatter (`formatter.ts`) -/

structure JRange where
  offset : Nat
  length : Nat
deriving DecidableEq, Repr

/-- `json.FormattingOptions`.  `tabSize = 0` plays the role of a falsy/absent
tab size (the source reads `options.tabSize || 4`); `eol = none` or
`eol = some ""` are falsy for `(options && options.eol) || '\n'`. -/
structure FormattingOptions where
  tabSize : Nat
  insertSpaces : Bool
  eol : Option String
deriving DecidableEq, Repr

/-- A formatter edit: replace `length` characters at `offset` with `content`. -/
structure Edit where
  offset : Nat
  length : Int
  content : String
deriving DecidableEq, Repr

/-- `isEOL(text, offset)`: the source tests
`'\r\n'.indexOf(text.charAt(offset)) !== -1`; out of range, `charAt` yields
the empty string, whose `indexOf` is `0`, so the result is `true`. -/
def isEOL (text : List Char) (offset : Nat) : Bool :=
  match text[offset]? with
  | some c => c == '\r' || c == '\n'
  | none => true

/-- `repeat(s, count)` of the source (a count of zero or less yields `""`). -/
def repeatStr (s : String) (count : Int) : String :=
  String.join (List.replicate count.toNat s)

def indentCharsLoop (tabSize : Nat) : List Char → Nat
  | [] => 0
  | c :: cs =>
    if c == ' ' then 1 + indentCharsLoop tabSize cs
    else if c == '\t' then tabSize + indentCharsLoop tabSize cs
    else 0

def computeIndentLevel (content : List Char) (options : FormattingOptions) : Nat :=
  let tabSize := if options.tabSize == 0 then 4 else options.tabSize
  indentCharsLoop tabSize content / tabSize

/-- `getEOL(options, text)`: first end-of-line sequence found in the text
(`\r\n` when a `\r` is directly followed by `\n`, else the lone `\r` or the
`\n`), falling back to the caller-supplied option, falling back to `\n`. -/
def getEOL (options : FormattingOptions) (text : List Char) : String :=
  match text with
  | [] =>
    match options.eol with
    | some s => if s == "" then "\n" else s
    | none => "\n"
  | c :: rest =>
    if c == '\r' then (if rest.head? == some '\n' then "\r\n" else "\r")
    else if c == '\n' then "\n"
    else getEOL options rest

/-- JS `text.substring(s, e)`: clamps both arguments to `[0, length]` and
swaps them when `s > e`. -/
def jsSubstring (text : List Char) (s e : Nat) : String :=
  let s1 := min s text.length
  let e1 := min e text.length
  let lo := min s1 e1
  let hi := max s1 e1
  String.mk ((text.drop lo).take (hi - lo))

/-- Backward scan of `formatJSON`'s range handling: decrease `formatTextStart`
while the previous character is not an end-of-line character. -/
def backScan (text : List Char) : Nat → Nat
  | 0 => 0
  | n + 1 => if isEOL text n then n + 1 else backScan text n

/-- Forward scan of `formatJSON`'s range handling: increase `endOffset` to the
next end-of-line character (or the end of the text).  The auxiliary walks the
remaining characters, so `off < text.length` holds exactly while the remaining
list is non-empty. -/
def fwdScanAux (text : List Char) : Nat → List Char → Nat
  | off, [] => off
  | off, _ :: rest => if isEOL text off then off else fwdScanAux text (off + 1) rest

def fwdScan (text : List Char) (off : Nat) : Nat :=
  fwdScanAux text off (text.drop off)

/-- `addEdit`: emit the replacement only when the stream is not errored, the
span overlaps `[rangeStart, rangeEnd)` and the replacement differs from the
existing text. -/
def addEdit (documentText : List Char) (rangeStart rangeEnd : Nat) (hasError : Bool)
    (text : String) (startOffset endOffset : Nat) : List Edit :=
  if hasError = false ∧ startOffset < rangeEnd ∧ rangeStart < endOffset ∧
      jsSubstring documentText startOffset endOffset ≠ text then
    [⟨startOffset, (endOffset : Int) - (startOffset : Int), text⟩]
  else []

/-- `scanNext` of `formatJSON`: scan, skipping whitespace and line-break
trivia, remembering whether a line break was among the skipped trivia.
Also reports the recomputed `hasError` flag
(`token === Unknown || scanner.getTokenError() !== None`). -/
def scanNextF (text : List Char) : Nat → Nat → ScanResult × Bool
  | 0, pos => (scanOne text pos, false)
  | fuel + 1, pos =>
    let r := scanOne text pos
    if r.kind == SyntaxKind.trivia || r.kind == SyntaxKind.lineBreakTrivia then
      let rec1 := scanNextF text fuel r.pos
      (rec1.1, rec1.2 || r.kind == SyntaxKind.lineBreakTrivia)
    else (r, false)

def freshHasError (r : ScanResult) : Bool :=
  r.kind == SyntaxKind.unknown || r.err != ScanError.none

/-- The first loop of `getPostmanVariablePosition`: length of the prefix up to
(not including) the first `:`/`,`/`]`/end-of-line character. -/
def gpvDelimPos : List Char → Nat
  | [] => 0
  | c :: rest =>
    if c == ':' || c == ',' || c == ']' || isEOL [c] 0 then 0
    else 1 + gpvDelimPos rest

/-- The bracket-matching walk of `getPostmanVariablePosition`: same algorithm
as `bracketScanLoop`, but collecting raw `(startIndex, endIndex)` pairs. -/
def gpvLoop (startPosition : Nat) :
    List Char → Nat → List Int → List (Int × Int) → List (Int × Int)
  | [], _, _, matched => matched
  | [c], position, stack, matched =>
    if c == '{' then
      gpvLoop startPosition [] (position + 1)
        (((startPosition : Int) + (position : Int)) :: stack) matched
    else gpvLoop startPosition [] (position + 1) stack matched
  | c :: c2 :: rest2, position, stack, matched =>
    if c == '{' then
      gpvLoop startPosition (c2 :: rest2) (position + 1)
        (((startPosition : Int) + (position : Int)) :: stack) matched
    else if c == '}' && c2 == '}' then
      match stack with
      | [] => gpvLoop startPosition (c2 :: rest2) (position + 1) [] matched
      | c0 :: st =>
        match findAdjacentPair c0 st with
        | some (n, st2) =>
          gpvLoop startPosition rest2 (position + 2) st2
            (matched ++ [(n, (startPosition : Int) + (position : Int) + 1)])
        | none => gpvLoop startPosition (c2 :: rest2) (position + 1) [] matched
    else gpvLoop startPosition (c2 :: rest2) (position + 1) stack matched

/-- `getPostmanVariablePosition` of the formatter, as a function of the
enclosing scan state: `tokenOffset` is the offset of the second `{` token.
Returns the placeholder's `{startIndex, endIndex}` or `null`; the source's
accompanying scanner effect (`setPosition(maxEndIndex); scan()`) is performed
by the caller `formatJSON`.  A match is accepted only when the minimal matched
start coincides with `startPosition`. -/
def getPostmanVariablePosition (formatText : List Char) (formatTextStart : Nat)
    (tokenOffset : Nat) : Option (Nat × Nat) :=
  let startPosition := tokenOffset + formatTextStart - 1
  let textFromCurrentPosition := formatText.drop startPosition
  let position := gpvDelimPos textFromCurrentPosition
  let text := textFromCurrentPosition.take position
  if text.length == 0 then none
  else
    match gpvLoop startPosition text 0 [] [] with
    | [] => none
    | m :: ms =>
      let minStartIndex := (ms.map Prod.fst).foldl min m.1
      let maxEndIndex := (ms.map Prod.snd).foldl max m.2
      if minStartIndex != (startPosition : Int) then none
      else some (startPosition, maxEndIndex.toNat)

/-- Context fixed throughout one `formatJSON` run. -/
structure FmtCtx where
  documentText : List Char
  formatText : List Char
  formatTextStart : Nat
  rangeStart : Nat
  rangeEnd : Nat
  eol : String
  indentValue : String
  initialIndentLevel : Nat
deriving Repr

def newLineAndIndent (ctx : FmtCtx) (indentLevel : Int) : String :=
  ctx.eol ++ repeatStr ctx.indentValue ((ctx.initialIndentLevel : Int) + indentLevel)

/-- The comments-on-the-same-line absorption loop of `formatJSON`: keep such
comments on the line, emitting a single-space edit before each.  Returns the
next scan, line-break flag, error flag, `firstTokenEnd`, `replaceContent`, and
the accumulated edits. -/
def commentLoop (documentText formatText : List Char)
    (formatTextStart rangeStart rangeEnd : Nat) (nlIndent : String) :
    Nat → ScanResult → Bool → Bool → Nat → String → List Edit →
      ScanResult × Bool × Bool × Nat × String × List Edit
  | 0, r2, lb, he, fte, rc, ed => (r2, lb, he, fte, rc, ed)
  | fuel + 1, r2, lb, he, fte, rc, ed =>
    if !lb && (r2.kind == SyntaxKind.lineCommentTrivia ||
        r2.kind == SyntaxKind.blockCommentTrivia) then
      let commentTokenStart := r2.tokenOffset + formatTextStart
      let ed1 := ed ++ addEdit documentText rangeStart rangeEnd he " " fte commentTokenStart
      let fte1 := r2.pos + formatTextStart
      let rc1 := if r2.kind == SyntaxKind.lineCommentTrivia then nlIndent else ""
      let s2 := scanNextF formatText (formatText.length + 4) r2.pos
      commentLoop documentText formatText formatTextStart rangeStart rangeEnd nlIndent fuel
        s2.1 s2.2 (freshHasError s2.1) fte1 rc1 ed1
    else (r2, lb, he, fte, rc, ed)

/-- The token-pair loop of `formatJSON`.  `firstScan` holds the scanner data of
the current first token; `hasError` is recomputed at every `scanNext`, so it
does not survive loop iterations and is not threaded through. -/
def formatLoop (ctx : FmtCtx) : Nat → ScanResult → Int → List Edit → List Edit
  | 0, _, _, edits => edits
  | fuel + 1, firstScan, indentLevel, edits =>
    if firstScan.kind == SyntaxKind.eof then edits
    else
      let firstTokenEnd0 := firstScan.pos + ctx.formatTextStart
      let s2 := scanNextF ctx.formatText (ctx.formatText.length + 4) firstScan.pos
      let ph : SyntaxKind × Nat × ScanResult × Bool :=
        if !s2.2 && firstScan.kind == SyntaxKind.openBraceToken &&
            s2.1.kind == SyntaxKind.openBraceToken then
          match getPostmanVariablePosition ctx.formatText ctx.formatTextStart
              s2.1.tokenOffset with
          | some pv =>
            let afterScan := scanOne ctx.formatText pv.2
            let s3 := scanNextF ctx.formatText (ctx.formatText.length + 4) afterScan.pos
            (SyntaxKind.stringLiteral, pv.2 + 1, s3.1, s3.2)
          | none => (firstScan.kind, firstTokenEnd0, s2.1, s2.2)
        else (firstScan.kind, firstTokenEnd0, s2.1, s2.2)
      let firstToken := ph.1
      let r2a := ph.2.2.1
      let cl := commentLoop ctx.documentText ctx.formatText ctx.formatTextStart ctx.rangeStart
        ctx.rangeEnd (newLineAndIndent ctx indentLevel) (ctx.formatText.length + 4)
        r2a ph.2.2.2 (freshHasError r2a) ph.2.1 "" edits
      let r3 := cl.1
      let lb3 := cl.2.1
      let he3 := cl.2.2.1
      let fte3 := cl.2.2.2.1
      let rc3 := cl.2.2.2.2.1
      let ed3 := cl.2.2.2.2.2
      let step : String × Int × Bool :=
            if r3.kind == SyntaxKind.closeBraceToken then
              if firstToken != SyntaxKind.openBraceToken then
                (newLineAndIndent ctx (indentLevel - 1), indentLevel - 1, he3)
              else (rc3, indentLevel, he3)
            else if r3.kind == SyntaxKind.closeBracketToken then
              if firstToken != SyntaxKind.openBracketToken then
                (newLineAndIndent ctx (indentLevel - 1), indentLevel - 1, he3)
              else (rc3, indentLevel, he3)
            else
              let fallGroup : String × Int × Bool :=
                if r3.kind == SyntaxKind.lineCommentTrivia ||
                    r3.kind == SyntaxKind.blockCommentTrivia then
                  (" ", indentLevel, he3)
                else if r3.kind != SyntaxKind.commaToken && r3.kind != SyntaxKind.eof then
                  (rc3, indentLevel, true)
                else (rc3, indentLevel, he3)
              let base : String × Int × Bool :=
                match firstToken with
                | SyntaxKind.openBracketToken =>
                  (newLineAndIndent ctx (indentLevel + 1), indentLevel + 1, he3)
                | SyntaxKind.openBraceToken =>
                  (newLineAndIndent ctx (indentLevel + 1), indentLevel + 1, he3)
                | SyntaxKind.commaToken => (newLineAndIndent ctx indentLevel, indentLevel, he3)
                | SyntaxKind.lineCommentTrivia =>
                  (newLineAndIndent ctx indentLevel, indentLevel, he3)
                | SyntaxKind.blockCommentTrivia =>
                  (if lb3 then newLineAndIndent ctx indentLevel else " ", indentLevel, he3)
                | SyntaxKind.colonToken => (" ", indentLevel, he3)
                | SyntaxKind.stringLiteral =>
                  if r3.kind == SyntaxKind.colonToken then ("", indentLevel, he3) else fallGroup
                | SyntaxKind.nullKeyword => fallGroup
                | SyntaxKind.trueKeyword => fallGroup
                | SyntaxKind.falseKeyword => fallGroup
                | SyntaxKind.numericLiteral => fallGroup
                | SyntaxKind.closeBraceToken => fallGroup
                | SyntaxKind.closeBracketToken => fallGroup
                | SyntaxKind.unknown => (rc3, indentLevel, true)
                | _ => (rc3, indentLevel, he3)
              if lb3 && (r3.kind == SyntaxKind.lineCommentTrivia ||
                  r3.kind == SyntaxKind.blockCommentTrivia) then
                (newLineAndIndent ctx base.2.1, base.2.1, base.2.2)
              else base
          let secondTokenStart := r3.tokenOffset + ctx.formatTextStart
          let ed4 := ed3 ++ addEdit ctx.documentText ctx.rangeStart ctx.rangeEnd step.2.2
            step.1 fte3 secondTokenStart
          formatLoop ctx fuel r3 step.2.1 ed4

/-- `formatJSON` of the formatter module. -/
def formatJSON (documentText : List Char) (range : Option JRange)
    (options : FormattingOptions) : List Edit :=
  let eol := getEOL options documentText
  let tabSize : Nat := if options.tabSize == 0 then 4 else options.tabSize
  let indentValue := if options.insertSpaces then repeatStr " " (tabSize : Int) else "\t"
  let ctx : FmtCtx :=
    match range with
    | some r =>
      let rangeStart := r.offset
      let rangeEnd := rangeStart + r.length
      let formatTextStart := backScan documentText rangeStart
      let endOffset := fwdScan documentText rangeEnd
      let formatText := (documentText.drop formatTextStart).take (endOffset - formatTextStart)
      ⟨documentText, formatText, formatTextStart, rangeStart, rangeEnd, eol, indentValue,
        computeIndentLevel formatText options⟩
    | none => ⟨documentText, documentText, 0, 0, documentText.length, eol, indentValue, 0⟩
  let s1 := scanNextF ctx.formatText (ctx.formatText.length + 4) 0
  let firstScan := s1.1
  let edits0 : List Edit :=
    if firstScan.kind != SyntaxKind.eof then
      addEdit ctx.documentText ctx.rangeStart ctx.rangeEnd (freshHasError firstScan)
        (repeatStr ctx.indentValue (ctx.initialIndentLevel : Int)) ctx.formatTextStart
        (firstScan.tokenOffset + ctx.formatTextStart)
    else []
  formatLoop ctx (ctx.formatText.length + 8) firstScan 0 edits0

/-! ## Specification-side definitions used for comparison -/

/-- The end-of-line selection exactly as the specification words it: the first
literal `\r\n` or `\n` found in the source text; if the text contains
neither, the caller-supplied eol option; and if that is absent, `\n`. -/
def claimedEOL (options : FormattingOptions) : List Char → String
  | '\r' :: '\n' :: _ => "\r\n"
  | '\n' :: _ => "\n"
  | _ :: rest => claimedEOL options rest
  | [] =>
    match options.eol with
    | some s => s
    | none => "\n"

/-- The index of the first end-of-line character of a text, if any. -/
def firstEOLIdx : List Char → Option Nat
  | [] => none
  | c :: rest =>
    if c == '\r' || c == '\n' then some 0 else (firstEOLIdx rest).map (· + 1)

/-- Amended end-of-line selection (stated by indexing, independently of
`getEOL`'s scan): the first end-of-line character in the text decides
(`\r\n` when that character is a `\r` directly followed by `\n`, otherwise
the lone `\r` or the `\n`); with no end-of-line character, the caller-supplied
option when it is a non-empty string, else `\n`. -/
def amendedEOL (options : FormattingOptions) (text : List Char) : String :=
  match firstEOLIdx text with
  | none =>
    match options.eol with
    | some s => if s == "" then "\n" else s
    | none => "\n"
  | some i =>
    if text[i]? = some '\r' then
      if text[i + 1]? = some '\n' then "\r\n" else "\r"
    else "\n"

/-- Two parent chains agree on their overlap: the type markers coincide up to
the length of the shorter chain. -/
def stacksAgreeOnOverlap (a b : List JSONParent) : Prop :=
  ∀ i, i < min a.length b.length → a[i]? = b[i]?

instance (a b : List JSONParent) : Decidable (stacksAgreeOnOverlap a b) := by
  unfold stacksAgreeOnOverlap
  exact Nat.decidableBallLT _ _

/-- The span-disposition of an emitted edit that `addEdit` actually enforces:
the span overlaps `[rangeStart, rangeEnd)` and the replacement text differs
from the existing document text on the span. -/
def EditRespects (documentText : List Char) (rangeStart rangeEnd : Nat) (e : Edit) : Prop :=
  e.offset < rangeEnd ∧ (rangeStart : Int) < (e.offset : Int) + e.length ∧
    jsSubstring documentText e.offset ((e.offset : Int) + e.length).toNat ≠ e.content

/-! ## Heap-explicit embedding of `tokenize` for the frame-effect claim

`ParentFrame` objects of the source are heap nodes
`{ kind: Object|Array, parent: ParentFrame|null }`.  To reason about
mutation we make the heap explicit: frames live in a store (allocation
order), a stack is a frame index or `none`, and `ParentsStack.push`
allocates at the end of the store.  `tokenize` is repeated over this
representation; the claim is that a run only ever appends to the store,
never modifying an existing frame. -/

structure ParentFrame where
  type : JSONParent
  parent : Option Nat
deriving DecidableEq, Repr

abbrev FrameStore := List ParentFrame

/-- `ParentsStack.push`: allocate a fresh frame pointing at the current top. -/
def pushFrame (store : FrameStore) (parents : Option Nat) (type : JSONParent) :
    FrameStore × Option Nat :=
  (store ++ [⟨type, parents⟩], some store.length)

/-- `ParentsStack.pop`: read the parent pointer; popping `null` yields `null`. -/
def popFrame (store : FrameStore) (parents : Option Nat) : Option Nat :=
  match parents with
  | none => none
  | some i =>
    match store[i]? with
    | some f => f.parent
    | none => none

/-- `parents ? parents.type : ...`: read the top frame's kind. -/
def frameType (store : FrameStore) (parents : Option Nat) : Option JSONParent :=
  match parents with
  | none => none
  | some i =>
    match store[i]? with
    | some f => some f.type
    | none => none

/-- The mutable loop state of the heap-explicit `tokenize`, together with the
running output (`tokens`, the `endState` triple) and the frame store. -/
structure ArenaIter where
  pos : Nat
  lastWasColon : Bool
  parents : Option Nat
  openBracesCount : Nat
  adjustOffset : Bool
  tokens : List Token
  endScanError : Option ScanError
  endLastWasColon : Bool
  endParents : Option Nat
  store : FrameStore
deriving Repr

/-- One iteration of the `tokenize` loop over the heap-explicit stack;
`none` means the loop ends (EOF, or the source's non-advancement throw). -/
def tokenizeArenaStep (comments : Bool) (line : List Char) (inserted : Nat)
    (offsetDelta : Int) (languageId : Option String) (it : ArenaIter) :
    Option ArenaIter :=
  let r := scanOne line it.pos
  if r.kind == SyntaxKind.eof then none
  else if r.pos == it.pos then none
  else
    let offset : Int :=
      if it.adjustOffset then offsetDelta + (it.pos : Int) - (inserted : Int)
      else offsetDelta + (it.pos : Int)
    let adjustOffset1 := inserted != 0
    let openBraces1 :=
      if r.kind == SyntaxKind.openBraceToken then it.openBracesCount + 1 else 0
    let next (type : String) (lwc1 : Bool) (parents1 : Option Nat)
        (store1 : FrameStore) (pvs : List Token) : Option ArenaIter :=
      some ⟨r.pos, lwc1, parents1, openBraces1, adjustOffset1,
        it.tokens ++ [⟨offset, type, none⟩] ++ pvs, some r.err, lwc1, parents1, store1⟩
    match r.kind with
    | SyntaxKind.openBraceToken =>
      let p := pushFrame it.store it.parents JSONParent.object
      if openBraces1 == 2 && languageId == some "postman_json" then
        let stringFromDoubleBraces := (line.drop (r.pos - 2)) ++ ['\n']
        let delimiterIndex :=
          findClosestDelimiter stringFromDoubleBraces [",", ":", "]", "\n"]
        if delimiterIndex ≥ 0 then
          let delimitedString := stringFromDoubleBraces.take delimiterIndex.toNat
          let ptoks := createPostmanVariableScanner delimitedString (offset - 1)
            it.lastWasColon false
          match ptoks with
          | [] => next "" false p.2 p.1 []
          | _ :: _ =>
            let lastTok := ptoks.getLast?.getD ⟨0, "", none⟩
            let newPos := (lastTok.endIndex.getD 0 + 1).toNat
            let parents2 := popFrame p.1 (popFrame p.1 p.2)
            some ⟨newPos, false, parents2, openBraces1, adjustOffset1,
              it.tokens.dropLast ++ ptoks, some ScanError.none, false, parents2, p.1⟩
        else next TOKEN_DELIM_OBJECT false p.2 p.1 []
      else next TOKEN_DELIM_OBJECT false p.2 p.1 []
    | SyntaxKind.closeBraceToken =>
      next TOKEN_DELIM_OBJECT false (popFrame it.store it.parents) it.store []
    | SyntaxKind.openBracketToken =>
      let p := pushFrame it.store it.parents JSONParent.array
      next TOKEN_DELIM_ARRAY false p.2 p.1 []
    | SyntaxKind.closeBracketToken =>
      next TOKEN_DELIM_ARRAY false (popFrame it.store it.parents) it.store []
    | SyntaxKind.colonToken => next TOKEN_DELIM_COLON true it.parents it.store []
    | SyntaxKind.commaToken => next TOKEN_DELIM_COMMA false it.parents it.store []
    | SyntaxKind.trueKeyword => next TOKEN_VALUE_BOOLEAN false it.parents it.store []
    | SyntaxKind.falseKeyword => next TOKEN_VALUE_BOOLEAN false it.parents it.store []
    | SyntaxKind.nullKeyword => next TOKEN_VALUE_NULL false it.parents it.store []
    | SyntaxKind.stringLiteral =>
      let currentParent := (frameType it.store it.parents).getD JSONParent.object
      let inArray := currentParent == JSONParent.array
      let inValue := it.lastWasColon || inArray
      let tokenValue := (line.drop (r.tokenOffset + 1)).take (r.pos - r.tokenOffset - 2)
      let pvs :=
        if languageId == some "postman_json" then
          createPostmanVariableScanner tokenValue (offset + 1) inValue true
        else []
      let type := if inValue || inArray then TOKEN_VALUE_STRING else TOKEN_PROPERTY_NAME
      next type false it.parents it.store pvs
    | SyntaxKind.numericLiteral => next TOKEN_VALUE_NUMBER false it.parents it.store []
    | SyntaxKind.lineCommentTrivia =>
      next (if comments then TOKEN_COMMENT_LINE else "") it.lastWasColon it.parents it.store []
    | SyntaxKind.blockCommentTrivia =>
      next (if comments then TOKEN_COMMENT_BLOCK else "") it.lastWasColon it.parents it.store []
    | _ => next "" it.lastWasColon it.parents it.store []

def tokenizeArenaLoop (comments : Bool) (line : List Char) (inserted : Nat)
    (offsetDelta : Int) (languageId : Option String) :
    Nat → ArenaIter → ArenaIter
  | 0, it => it
  | fuel + 1, it =>
    match tokenizeArenaStep comments line inserted offsetDelta languageId it with
    | some it2 => tokenizeArenaLoop comments line inserted offsetDelta languageId fuel it2
    | none => it

/-- Heap-explicit `tokenize`: same function as `tokenize`, with the frame heap
passed in and returned explicitly. -/
def tokenizeArena (comments : Bool) (line : String) (scanError : Option ScanError)
    (lastWasColon : Bool) (parents : Option Nat) (store : FrameStore)
    (offsetDelta : Int) (languageId : Option String) : ArenaIter :=
  let p : List Char × Nat :=
    match scanError with
    | some ScanError.unexpectedEndOfString => ('"' :: line.toList, 1)
    | some ScanError.unexpectedEndOfComment => ('/' :: '*' :: line.toList, 2)
    | _ => (line.toList, 0)
  tokenizeArenaLoop comments p.1 p.2 offsetDelta languageId (p.1.length + 4)
    ⟨0, lastWasColon, parents, 0, false, [], scanError, lastWasColon, parents, store⟩

/-- Shift a token's start offset up by `i` (used to relate a synthetic-prefix
scan to the plain scan of the prefixed line). -/
def shiftTokenBy (i : Nat) (t : Token) : Token :=
  ⟨t.startIndex + (i : Int), t.scopes, t.endIndex⟩

/-- The offset relation the synthetic-prefix exemption induces: with `f` set
the correction applies from the first token on; otherwise the first token is
exempt and only later tokens sit `i` positions further right in the prefixed
line. -/
def prefixAdjusted (i : Nat) (f : Bool) : List Token → List Token
  | [] => []
  | t :: ts => (if f then shiftTokenBy i t else t) :: ts.map (shiftTokenBy i)

/-- What one iteration of the plain (nothing-inserted) scan produces, as a
function of the corresponding iteration of the adjusted scan: the adjust flag
is clear and, when the adjusted iteration subtracted the inserted count, the
token offsets sit `i` higher. -/
def cleanOfErrStep (i : Nat) (f : Bool) (s : TokStep) : TokStep :=
  ⟨s.pos, s.lastWasColon, s.parents, s.openBracesCount, false, s.popLast,
    if f then s.newTokens.map (shiftTokenBy i) else s.newTokens, s.endState⟩

/-! ## Claim theorems -/

set_option maxHeartbeats 2000000

/-- C1: for a line in which `\x7b\x7benvVar\x7d\x7d` appears as an entire
top-level property value (not inside quotes), the placeholder-aware variant
(languageId `postman_json`) emits exactly one placeholder token with scope
`postman.variable.json` spanning the full placeholder (offsets 8-17), zero
object-delimiter tokens for the two brace pairs forming it (the only
`delimiter.bracket.json` tokens are the enclosing object's braces at 0 and
18), and the resulting parent stack equals the one obtained when the
placeholder is replaced by the atomic value `0`. -/
theorem C1_top_level_placeholder_tokenization :
    tokenize true "\x7b\"key\": \x7b\x7benvVar\x7d\x7d\x7d" getInitialState 0
        (some "postman_json") =
      ⟨[⟨0, TOKEN_DELIM_OBJECT, none⟩, ⟨1, TOKEN_PROPERTY_NAME, none⟩,
        ⟨6, TOKEN_DELIM_COLON, none⟩, ⟨7, "", none⟩,
        ⟨8, TOKEN_POSTMAN_VARIABLE, some 17⟩, ⟨18, TOKEN_DELIM_OBJECT, none⟩],
       ⟨some ScanError.none, false, []⟩⟩ ∧
    (tokenize true "\x7b\"key\": \x7b\x7benvVar\x7d\x7d\x7d" getInitialState 0
        (some "postman_json")).endState.parents =
      (tokenize true "\x7b\"key\": 0\x7d" getInitialState 0
        (some "postman_json")).endState.parents := by
  decide

/-- C2: for the property value `"\x7b\x7bbaseUrl\x7d\x7d/api"`, the
placeholder-aware variant produces the container string token (offset 5), then
a `postman.variable.string.json` token spanning exactly the placeholder
(offsets 6-16), then a `string.value.json` filler starting at 17 (the first
character of `/api`), adjacent to the placeholder with no gap or overlap; the
next token is the closing object brace at 22, so only the closing quote lies
between the filler and it. -/
theorem C2_placeholder_in_string_tokens :
    tokenize true "\x7b\"a\":\"\x7b\x7bbaseUrl\x7d\x7d/api\"\x7d" getInitialState 0
        (some "postman_json") =
      ⟨[⟨0, TOKEN_DELIM_OBJECT, none⟩, ⟨1, TOKEN_PROPERTY_NAME, none⟩,
        ⟨4, TOKEN_DELIM_COLON, none⟩, ⟨5, TOKEN_VALUE_STRING, none⟩,
        ⟨6, TOKEN_POSTMAN_VARIABLE_IN_STRING, some 16⟩,
        ⟨17, TOKEN_VALUE_STRING, none⟩, ⟨22, TOKEN_DELIM_OBJECT, none⟩],
       ⟨some ScanError.none, false, []⟩⟩ := by
  decide

/-- C3 counterexample: formatting the malformed input `\x7b"a":1 2\x7d`
(missing comma, no sub-range, the default options the `format` wrapper
produces) does not return an empty edit list. -/
theorem C3_malformed_format_not_empty :
    formatJSON "\x7b\"a\":1 2\x7d".toList none ⟨4, true, some "\n"⟩ ≠ [] := by
  decide

/-- C3 amended: on malformed input the error flag suppresses only the edits
computed while it is set; it is recomputed at every `scanNext`, so the edits
computed before the offending token pair and after the next scan are kept.
For `\x7b"a":1 2\x7d` the formatter keeps the three whitespace edits around
the error and drops only the edit between `1` and `2`. -/
theorem C3_malformed_format_edits :
    formatJSON "\x7b\"a\":1 2\x7d".toList none ⟨4, true, some "\n"⟩ =
      [⟨1, 0, "\n    "⟩, ⟨5, 0, " "⟩, ⟨8, 0, "\n"⟩] := by
  decide

/-- C4 counterexample: on the line `\x7b\x7ba\x7d \x7b\x7bb\x7d\x7d` the
tokenizer's detection call accepts the double-brace match that begins at
offset 5, later than the start of the scanned span (offset 0): the two
already-queued brace tokens are discarded and the non-anchored match is
emitted as the placeholder token, refuting the claim that such a match is
rejected in both detection call sites. -/
theorem C4_tokenizer_accepts_unanchored_match :
    (tokenize true "\x7b\x7ba\x7d \x7b\x7bb\x7d\x7d" getInitialState 0
        (some "postman_json")).tokens =
      [⟨5, TOKEN_POSTMAN_VARIABLE, some 9⟩] := by
  decide

/-- C4 amended: the start-anchor policy holds only in the formatter's
detection call: on the same span `\x7b\x7ba\x7d \x7b\x7bb\x7d\x7d`,
`getPostmanVariablePosition` rejects the later-starting match
(`minStartIndex !== startPosition` yields `null`), while the tokenizer's
`createPostmanVariableScanner` accepts it and returns the match starting at
offset 5. -/
theorem C4_anchor_only_in_formatter :
    getPostmanVariablePosition "\x7b\x7ba\x7d \x7b\x7bb\x7d\x7d".toList 0 1 = none ∧
    createPostmanVariableScanner "\x7b\x7ba\x7d \x7b\x7bb\x7d\x7d".toList 0 false false =
      [⟨5, TOKEN_POSTMAN_VARIABLE, some 9⟩] := by
  decide

/-- `prefixAdjusted` with the exemption flag set shifts every token. -/
theorem prefixAdjusted_true (i : Nat) (l : List Token) :
    prefixAdjusted i true l = l.map (shiftTokenBy i) := by
  cases l <;> simp [prefixAdjusted]

/-- In the plain variant, one iteration of the nothing-inserted scan is the
`cleanOfErrStep` image of the corresponding iteration of the adjusted scan:
both consume the same token of the same prefixed line, and they differ only
in the adjust flag and the (possibly exempted) offset shift. -/
theorem tokenizeStep_adjust (comments : Bool) (line : List Char) (i : Nat)
    (pos : Nat) (lwc : Bool) (parents : List JSONParent) (ob : Nat) (f : Bool) :
    tokenizeStep comments line 0 0 none pos lwc parents ob false =
      (tokenizeStep comments line i 0 none pos lwc parents ob f).map (cleanOfErrStep i f) := by
  unfold tokenizeStep
  by_cases h1 : ((scanOne line pos).kind == SyntaxKind.eof) = true
  · rw [if_pos h1, if_pos h1]; rfl
  rw [if_neg h1, if_neg h1]
  by_cases h2 : ((scanOne line pos).pos == pos) = true
  · rw [if_pos h2, if_pos h2]; rfl
  rw [if_neg h2, if_neg h2]
  rcases hk : (scanOne line pos).kind <;> cases f <;>
    simp [hk, cleanOfErrStep, shiftTokenBy]

/-- In the plain variant every successful iteration records the
`inserted != 0` adjust flag, never retracts a queued token, and appends
exactly one token. -/
theorem tokenizeStep_shape (comments : Bool) (line : List Char) (i : Nat)
    (offsetDelta : Int) (pos : Nat) (lwc : Bool) (parents : List JSONParent)
    (ob : Nat) (f : Bool) (s : TokStep)
    (h : tokenizeStep comments line i offsetDelta none pos lwc parents ob f = some s) :
    s.adjustOffset = (i != 0) ∧ s.popLast = false ∧ ∃ tok, s.newTokens = [tok] := by
  unfold tokenizeStep at h
  by_cases h1 : ((scanOne line pos).kind == SyntaxKind.eof) = true
  · rw [if_pos h1] at h; cases h
  rw [if_neg h1] at h
  by_cases h2 : ((scanOne line pos).pos == pos) = true
  · rw [if_pos h2] at h; cases h
  rw [if_neg h2] at h
  rcases hk : (scanOne line pos).kind <;>
    simp [hk] at h <;>
    (cases h; exact ⟨rfl, rfl, _, rfl⟩)

/-- The adjusted scan (`inserted = i`, current exemption flag `f`) and the
plain scan of the same prefixed line stay in lockstep: from any common loop
state they emit the same tokens up to `prefixAdjusted i f`. -/
theorem tokenizeLoop_prefix_adjust (comments : Bool) (line : List Char) (i : Nat)
    (hi : i ≠ 0) :
    ∀ (fuel : Nat) (pos : Nat) (lwc : Bool) (parents : List JSONParent) (ob : Nat)
      (f : Bool) (acc1 acc2 : List Token) (es1 es2 : JSONState),
      ∃ rest,
        (tokenizeLoop comments line i 0 none fuel pos lwc parents ob f acc1 es1).tokens =
          acc1 ++ rest ∧
        (tokenizeLoop comments line 0 0 none fuel pos lwc parents ob false acc2 es2).tokens =
          acc2 ++ prefixAdjusted i f rest := by
  intro fuel
  induction fuel with
  | zero =>
    intro pos lwc parents ob f acc1 acc2 es1 es2
    exact ⟨[], by simp [tokenizeLoop], by simp [tokenizeLoop, prefixAdjusted]⟩
  | succ n ih =>
    intro pos lwc parents ob f acc1 acc2 es1 es2
    have hstepeq := tokenizeStep_adjust comments line i pos lwc parents ob f
    simp only [tokenizeLoop]
    cases hs : tokenizeStep comments line i 0 none pos lwc parents ob f with
    | none =>
      rw [hs] at hstepeq
      simp only [Option.map_none'] at hstepeq
      rw [hstepeq]
      exact ⟨[], by simp, by simp [prefixAdjusted]⟩
    | some s1 =>
      rw [hs] at hstepeq
      simp only [Option.map_some'] at hstepeq
      rw [hstepeq]
      dsimp only
      obtain ⟨hadj, hpop, tok, htok⟩ :=
        tokenizeStep_shape comments line i 0 pos lwc parents ob f s1 hs
      have hadj1 : s1.adjustOffset = true := by
        rw [hadj]
        simp [hi]
      obtain ⟨rest1, h1, h2⟩ := ih s1.pos s1.lastWasColon s1.parents s1.openBracesCount
        true (acc1 ++ [tok]) (acc2 ++ [if f then shiftTokenBy i tok else tok])
        s1.endState s1.endState
      refine ⟨tok :: rest1, ?_, ?_⟩
      · rw [hpop, htok, hadj1]
        simp only [Bool.false_eq_true, if_false]
        rw [h1]
        simp
      · simp only [cleanOfErrStep, hpop, htok, Bool.false_eq_true, if_false]
        have hmap : (if f then [tok].map (shiftTokenBy i) else [tok]) =
            [if f then shiftTokenBy i tok else tok] := by
          cases f <;> simp
        rw [hmap, h2, prefixAdjusted_true]
        simp [prefixAdjusted]

/-- In the plain variant, the token an iteration starting at position `0`
with a clear adjust flag emits starts at offset `0`. -/
theorem tokenizeStep_startIndex_zero (comments : Bool) (line : List Char) (i : Nat)
    (lwc : Bool) (parents : List JSONParent) (ob : Nat) (s : TokStep)
    (h : tokenizeStep comments line i 0 none 0 lwc parents ob false = some s) :
    ∀ t ∈ s.newTokens, t.startIndex = 0 := by
  unfold tokenizeStep at h
  by_cases h1 : ((scanOne line 0).kind == SyntaxKind.eof) = true
  · rw [if_pos h1] at h; cases h
  rw [if_neg h1] at h
  by_cases h2 : ((scanOne line 0).pos == 0) = true
  · rw [if_pos h2] at h; cases h
  rw [if_neg h2] at h
  rcases hk : (scanOne line 0).kind <;>
    simp [hk] at h <;>
    (cases h; intro t ht; simp at ht; simp [ht])

/-- In the plain variant the first emitted token of a scan starting at
position `0` starts at offset `0`. -/
theorem tokenizeLoop_head_start_zero (comments : Bool) (line : List Char) (i : Nat)
    (hi : i ≠ 0) (n : Nat) (lwc : Bool) (parents : List JSONParent) (es : JSONState)
    (t : Token)
    (h : (tokenizeLoop comments line i 0 none (n + 1) 0 lwc parents 0 false
        [] es).tokens.head? = some t) :
    t.startIndex = 0 := by
  simp only [tokenizeLoop] at h
  cases hs : tokenizeStep comments line i 0 none 0 lwc parents 0 false with
  | none => rw [hs] at h; cases h
  | some s =>
    rw [hs] at h
    dsimp only at h
    obtain ⟨hadj, hpop, tok, htok⟩ :=
      tokenizeStep_shape comments line i 0 0 lwc parents 0 false s hs
    rw [hpop] at h
    simp only [Bool.false_eq_true, if_false, List.nil_append, htok] at h
    obtain ⟨rest, h1, _⟩ := tokenizeLoop_prefix_adjust comments line i hi n s.pos
      s.lastWasColon s.parents s.openBracesCount s.adjustOffset [tok] [] s.endState s.endState
    rw [h1] at h
    simp only [List.cons_append, List.head?, Option.some.injEq] at h
    subst h
    exact tokenizeStep_startIndex_zero comments line i lwc parents 0 s hs tok (by simp [htok])

/-- C5: when the prior state ends in an unterminated string (resp. block
comment), `tokenize` scans the line with a synthetic `"` (resp. `/*`)
prefix and corrects every emitted offset except the first token's by the
inserted count.  For every line and state in the plain variant: the plain
scan of the explicitly prefixed line yields exactly the same tokens as the
synthetic-prefix scan except that every token after the first sits
`inserted` positions further right (so the synthetic-prefix scan's offsets
land in the original line), and the synthetic-prefix scan's first token
starts at offset 0, the line's first position.  The last two conjuncts
evaluate the placeholder-aware variant on representatives of both prefix
kinds: for `abc": 1` after an unterminated string the scanned line is
`"abc": 1` with corrected offsets 0/4/5/6, and for `x*/ 2` after an
unterminated comment the scanned line is `/*x*/ 2` with corrected offsets
0/3/4. -/
theorem C5_synthetic_prefix_offsets :
    (∀ (comments : Bool) (line : String) (lwc : Bool) (parents : List JSONParent),
      (tokenize comments ("\"" ++ line) ⟨some ScanError.none, lwc, parents⟩ 0 none).tokens =
        prefixAdjusted 1 false
          (tokenize comments line ⟨some ScanError.unexpectedEndOfString, lwc, parents⟩
            0 none).tokens) ∧
    (∀ (comments : Bool) (line : String) (lwc : Bool) (parents : List JSONParent),
      (tokenize comments ("/*" ++ line) ⟨some ScanError.none, lwc, parents⟩ 0 none).tokens =
        prefixAdjusted 2 false
          (tokenize comments line ⟨some ScanError.unexpectedEndOfComment, lwc, parents⟩
            0 none).tokens) ∧
    (∀ (comments : Bool) (line : String) (lwc : Bool) (parents : List JSONParent) (t : Token),
      (tokenize comments line ⟨some ScanError.unexpectedEndOfString, lwc, parents⟩
          0 none).tokens.head? = some t → t.startIndex = 0) ∧
    (∀ (comments : Bool) (line : String) (lwc : Bool) (parents : List JSONParent) (t : Token),
      (tokenize comments line ⟨some ScanError.unexpectedEndOfComment, lwc, parents⟩
          0 none).tokens.head? = some t → t.startIndex = 0) ∧
    tokenize true "abc\": 1" ⟨some ScanError.unexpectedEndOfString, false, []⟩ 0
        (some "postman_json") =
      ⟨[⟨0, TOKEN_PROPERTY_NAME, none⟩, ⟨4, TOKEN_DELIM_COLON, none⟩,
        ⟨5, "", none⟩, ⟨6, TOKEN_VALUE_NUMBER, none⟩],
       ⟨some ScanError.none, false, []⟩⟩ ∧
    tokenize true "x*/ 2" ⟨some ScanError.unexpectedEndOfComment, false, []⟩ 0
        (some "postman_json") =
      ⟨[⟨0, TOKEN_COMMENT_BLOCK, none⟩, ⟨3, "", none⟩, ⟨4, TOKEN_VALUE_NUMBER, none⟩],
       ⟨some ScanError.none, false, []⟩⟩ := by
  refine ⟨?_, ?_, ?_, ?_, by decide, by decide⟩
  · intro comments line lwc parents
    unfold tokenize
    dsimp only
    have hl : ("\"" ++ line).toList = '"' :: line.toList := rfl
    rw [hl]
    obtain ⟨rest, h1, h2⟩ := tokenizeLoop_prefix_adjust comments ('"' :: line.toList) 1
      (by decide) (('"' :: line.toList).length + 4) 0 lwc parents 0 false [] []
      ⟨some ScanError.unexpectedEndOfString, lwc, parents⟩ ⟨some ScanError.none, lwc, parents⟩
    rw [h1, h2]
    simp
  · intro comments line lwc parents
    unfold tokenize
    dsimp only
    have hl : ("/*" ++ line).toList = '/' :: '*' :: line.toList := rfl
    rw [hl]
    obtain ⟨rest, h1, h2⟩ := tokenizeLoop_prefix_adjust comments ('/' :: '*' :: line.toList) 2
      (by decide) (('/' :: '*' :: line.toList).length + 4) 0 lwc parents 0 false [] []
      ⟨some ScanError.unexpectedEndOfComment, lwc, parents⟩ ⟨some ScanError.none, lwc, parents⟩
    rw [h1, h2]
    simp
  · intro comments line lwc parents t h
    unfold tokenize at h
    dsimp only at h
    exact tokenizeLoop_head_start_zero comments ('"' :: line.toList) 1 (by decide)
      (('"' :: line.toList).length + 3) lwc parents
      ⟨some ScanError.unexpectedEndOfString, lwc, parents⟩ t h
  · intro comments line lwc parents t h
    unfold tokenize at h
    dsimp only at h
    exact tokenizeLoop_head_start_zero comments ('/' :: '*' :: line.toList) 2 (by decide)
      (('/' :: '*' :: line.toList).length + 3) lwc parents
      ⟨some ScanError.unexpectedEndOfComment, lwc, parents⟩ t h

theorem C5_synthetic_prefix_offsets_witness :
    ((tokenize true "abc\": 1" ⟨some ScanError.unexpectedEndOfString, false, []⟩ 0
        none).tokens.head? = some ⟨0, TOKEN_PROPERTY_NAME, none⟩) ∧
      (⟨0, TOKEN_PROPERTY_NAME, none⟩ : Token).startIndex = 0 :=
  ⟨by decide,
   C5_synthetic_prefix_offsets.2.2.1 true "abc\": 1" false []
     ⟨0, TOKEN_PROPERTY_NAME, none⟩ (by decide)⟩

/-- C6 counterexample: two states whose parent stacks have different depths
(Object-Object versus Object) but equal scan errors and colon flags are
reported equal by `JSONState.equals`, refuting the claim that structural
equality requires equal stack length. -/
theorem C6_depth_mismatch_states_equal :
    JSONState.equals ⟨some ScanError.none, false, [JSONParent.object, JSONParent.object]⟩
        ⟨some ScanError.none, false, [JSONParent.object]⟩ = true ∧
    ([JSONParent.object, JSONParent.object] : List JSONParent).length ≠
      ([JSONParent.object] : List JSONParent).length := by
  decide

/-- C9 counterexample: the text `a\rb` contains neither a literal `\r\n` nor a
`\n`, so under the claimed precedence the caller-supplied option `\n` should
be used, but `getEOL` returns the lone `"\r"`. -/
theorem C9_lone_cr_eol :
    getEOL ⟨4, true, some "\n"⟩ "a\rb".toList = "\r" ∧
    claimedEOL ⟨4, true, some "\n"⟩ "a\rb".toList = "\n" := by
  decide

/-- C9 amended: `getEOL` realizes exactly the amended precedence order, for
every document text and every options record. -/
theorem C9_eol_selection (options : FormattingOptions) (text : List Char) :
    getEOL options text = amendedEOL options text := by
  induction text with
  | nil => rfl
  | cons c rest ih =>
    by_cases hr : c = '\r'
    · subst hr
      simp only [getEOL, amendedEOL, firstEOLIdx]
      norm_num
      cases h : rest.head? with
      | none =>
        cases rest with
        | nil => simp
        | cons d t => simp at h
      | some d =>
        cases rest with
        | nil => simp at h
        | cons d0 t =>
          simp only [List.head?] at h
          cases h
          by_cases hn : d = '\n' <;> simp [hn]
    · by_cases hn : c = '\n'
      · subst hn
        simp [getEOL, amendedEOL, firstEOLIdx]
      · have hc : (c == '\r' || c == '\n') = false := by simp [hr, hn]
        rw [getEOL, if_neg (by simp [hr]), if_neg (by simp [hn]), ih]
        unfold amendedEOL
        simp only [firstEOLIdx, hc, Bool.false_eq_true, if_false]
        cases hf : firstEOLIdx rest with
        | none => simp [hf]
        | some i => simp [hf]

/-- The equality walk accepts exactly the chains agreeing on their overlap. -/
theorem eqWalk_eq_true_iff :
    ∀ a b : List JSONParent, ParentsStack.eqWalk a b = true ↔ stacksAgreeOnOverlap a b := by
  intro a
  induction a with
  | nil =>
    intro b
    constructor
    · intro _ i hi
      simp at hi
    · intro _
      cases b <;> rfl
  | cons x xs ih =>
    intro b
    cases b with
    | nil =>
      constructor
      · intro _ i hi
        simp at hi
      · intro _
        rfl
    | cons y ys =>
      rw [show ParentsStack.eqWalk (x :: xs) (y :: ys) =
            (x == y && ParentsStack.eqWalk xs ys) from rfl]
      rw [Bool.and_eq_true, beq_iff_eq, ih ys]
      constructor
      · rintro ⟨hxy, hagree⟩ i hi
        cases i with
        | zero => simp [hxy]
        | succ j =>
          simp only [List.getElem?_cons_succ]
          exact hagree j (by simp at hi; omega)
      · intro h
        refine ⟨?_, fun j hj => ?_⟩
        · have h0 := h 0 (by simp)
          simpa using h0
        · have hs := h (j + 1) (by simp at hj ⊢; omega)
          simpa using hs

/-- C6 amended: `JSONState.equals` returns `true` exactly when the scan errors
and colon flags agree and the parent stacks are either both empty or both
non-empty with their Object/Array markers agreeing up to the length of the
shorter stack; equal depth is not required (a deeper stack whose top types
extend the shallower one's compares equal). -/
theorem C6_equals_characterization (s t : JSONState) :
    JSONState.equals s t = true ↔
      s.scanError = t.scanError ∧ s.lastWasColon = t.lastWasColon ∧
      ((s.parents = [] ∧ t.parents = []) ∨
       (s.parents ≠ [] ∧ t.parents ≠ [] ∧ stacksAgreeOnOverlap s.parents t.parents)) := by
  unfold JSONState.equals ParentsStack.equals
  cases hs : s.parents with
  | nil =>
    cases ht : t.parents with
    | nil => simp
    | cons y ys => simp
  | cons x xs =>
    cases ht : t.parents with
    | nil => simp
    | cons y ys =>
      simp only [Bool.and_eq_true, beq_iff_eq, eqWalk_eq_true_iff]
      constructor
      · rintro ⟨⟨h1, h2⟩, h3⟩
        exact ⟨h1, h2, Or.inr ⟨by simp, by simp, h3⟩⟩
      · rintro ⟨h1, h2, h3 | h3⟩
        · simp at h3
        · exact ⟨⟨h1, h2⟩, h3.2.2⟩

/-- A character that occurs in a list is found by the single-character
substring search. -/
theorem subIndexOf_nonneg_of_mem {c : Char} :
    ∀ {s : List Char}, c ∈ s → 0 ≤ subIndexOf s [c] := by
  intro s
  induction s with
  | nil => intro h; cases h
  | cons a rest ih =>
    intro h
    unfold subIndexOf
    by_cases hac : matchesAt (a :: rest) [c] = true
    · simp [hac]
    · have hac2 : (a == c) = false := by
        have : matchesAt (a :: rest) [c] = (a == c && matchesAt rest []) := rfl
        rw [this] at hac
        have hnil : matchesAt rest [] = true := by cases rest <;> rfl
        rw [hnil, Bool.and_true] at hac
        exact Bool.not_eq_true _ ▸ (by simpa using hac)
      have hmem : c ∈ rest := by
        cases h with
        | head => simp at hac2
        | tail _ hm => exact hm
      have h0 := ih hmem
      simp only [hac, Bool.false_eq_true, if_false]
      have hne : (subIndexOf rest [c] == -1) = false := by
        simp only [beq_eq_false_iff_ne, ne_eq]
        omega
      rw [hne]
      simp only [Bool.false_eq_true, if_false]
      omega

/-- The running-least fold produces an index as soon as its accumulator is
set or some delimiter occurs in the text. -/
theorem goLeast_isSome (s : List Char) :
    ∀ (ds : List String) (least : Option Nat),
      (least.isSome ∨ ∃ d ∈ ds, 0 ≤ subIndexOf s d.toList) →
      (goLeast s ds least).isSome := by
  intro ds
  induction ds with
  | nil =>
    intro least h
    rcases h with h | ⟨d, hd, _⟩
    · simpa [goLeast] using h
    · cases hd
  | cons d ds ih =>
    intro least h
    rw [goLeast.eq_def]
    rcases h with h | ⟨d0, hd0, hidx⟩
    · apply ih
      left
      rcases hl : least with _ | l
      · rw [hl] at h; simp at h
      · split <;> simp
    · rcases List.mem_cons.mp hd0 with rfl | hmem
      · apply ih
        rcases hl : least with _ | l
        · left
          have : (0 : Int) ≤ subIndexOf s d0.toList := hidx
          split <;> simp_all
          omega
        · left
          split <;> simp
      · exact ih _ (Or.inr ⟨d0, hmem, hidx⟩)

/-- C10: in the tokenizer's top-level double-brace path the bounded lookahead
string always has `\n` appended before the delimiter search and `\n` is among
the searched delimiters, so `findClosestDelimiter` never returns `-1` there:
the `delimiterIndex < 0` branch of `tokenize` — which would classify the
second open brace as an object delimiter — is unreachable for every input
line and state. -/
theorem C10_lookahead_always_finds_delimiter (s : List Char) :
    0 ≤ findClosestDelimiter (s ++ ['\n']) [",", ":", "]", "\n"] := by
  unfold findClosestDelimiter
  have hmem : '\n' ∈ s ++ ['\n'] := by simp
  have hsome := goLeast_isSome (s ++ ['\n']) [",", ":", "]", "\n"] none
    (Or.inr ⟨"\n", by simp, subIndexOf_nonneg_of_mem hmem⟩)
  simp only [List.length_cons, List.length_nil]
  rcases hg : goLeast (s ++ ['\n']) [",", ":", "]", "\n"] none with _ | i
  · rw [hg] at hsome; simp at hsome
  · simp

/-- Every edit `addEdit` emits satisfies its own guard. -/
theorem mem_addEdit {doc : List Char} {rs re : Nat} {he : Bool} {text : String}
    {s eo : Nat} {e : Edit} (h : e ∈ addEdit doc rs re he text s eo) :
    EditRespects doc rs re e := by
  unfold addEdit at h
  split at h
  · rename_i hcond
    obtain ⟨_, h1, h2, h3⟩ := hcond
    rcases List.mem_singleton.mp h with rfl
    unfold EditRespects
    refine ⟨h1, ?_, ?_⟩
    · show (rs : Int) < (s : Int) + ((eo : Int) - (s : Int))
      omega
    · show jsSubstring doc s (((s : Int) + ((eo : Int) - (s : Int))).toNat) ≠ text
      have heq : (((s : Int)) + ((eo : Int) - (s : Int))).toNat = eo := by omega
      rw [heq]
      exact h3
  · cases h

/-- All edits emitted by the comment-absorption loop satisfy the guard,
provided those already accumulated do. -/
theorem commentLoop_edits {doc ft : List Char} {fts rs re : Nat} {nl : String} :
    ∀ (fuel : Nat) (r2 : ScanResult) (lb he : Bool) (fte : Nat) (rc : String)
      (ed : List Edit),
      (∀ e ∈ ed, EditRespects doc rs re e) →
      ∀ e ∈ (commentLoop doc ft fts rs re nl fuel r2 lb he fte rc ed).2.2.2.2.2,
        EditRespects doc rs re e := by
  intro fuel
  induction fuel with
  | zero =>
    intro r2 lb he fte rc ed hed e hm
    exact hed e hm
  | succ n ih =>
    intro r2 lb he fte rc ed hed e hm
    simp only [commentLoop] at hm
    by_cases hc : (!lb && (r2.kind == SyntaxKind.lineCommentTrivia ||
        r2.kind == SyntaxKind.blockCommentTrivia)) = true
    · rw [if_pos hc] at hm
      refine ih _ _ _ _ _ _ ?_ e hm
      intro e' he'
      rcases List.mem_append.mp he' with h | h
      · exact hed e' h
      · exact mem_addEdit h
    · rw [if_neg hc] at hm
      exact hed e hm

/-- All edits emitted by the formatter's token-pair loop satisfy the guard,
provided those already accumulated do. -/
theorem formatLoop_edits (ctx : FmtCtx) :
    ∀ (fuel : Nat) (fs : ScanResult) (ind : Int) (ed : List Edit),
      (∀ e ∈ ed, EditRespects ctx.documentText ctx.rangeStart ctx.rangeEnd e) →
      ∀ e ∈ formatLoop ctx fuel fs ind ed,
        EditRespects ctx.documentText ctx.rangeStart ctx.rangeEnd e := by
  intro fuel
  induction fuel with
  | zero =>
    intro fs ind ed hed e hm
    exact hed e hm
  | succ n ih =>
    intro fs ind ed hed e hm
    simp only [formatLoop] at hm
    by_cases hc : (fs.kind == SyntaxKind.eof) = true
    · rw [if_pos hc] at hm
      exact hed e hm
    · rw [if_neg hc] at hm
      refine ih _ _ _ ?_ e hm
      intro e' he'
      rcases List.mem_append.mp he' with h | h
      · exact commentLoop_edits _ _ _ _ _ _ _ (fun x hx => hed x hx) e' h
      · exact mem_addEdit h

/-- The initial-indentation edit of `formatJSON` (guarded by the non-EOF test)
also satisfies the `addEdit` guard. -/
theorem mem_ite_addEdit {c : Prop} [Decidable c] {doc : List Char} {rs re : Nat}
    {he : Bool} {text : String} {s eo : Nat} {e : Edit}
    (h : e ∈ (if c then addEdit doc rs re he text s eo else [])) :
    EditRespects doc rs re e := by
  split at h
  · exact mem_addEdit h
  · cases h

/-- C7 amended: when `format` is called with a sub-range, every emitted edit's
replacement span overlaps `[rangeStart, rangeEnd)` (it need not lie within the
range) and its replacement text differs from the existing document text at
that span; this holds for every document text, range and options. -/
theorem C7_edits_overlap_range_and_differ (documentText : List Char) (r : JRange)
    (options : FormattingOptions) (e : Edit)
    (h : e ∈ formatJSON documentText (some r) options) :
    EditRespects documentText r.offset (r.offset + r.length) e := by
  unfold formatJSON at h
  refine formatLoop_edits _ _ _ _ _ ?_ e h
  intro e' he'
  exact mem_ite_addEdit he'

/-- C7 counterexample: range-formatting `\x7b"ab"  : 1\x7d` over the sub-range
`[6, 11)` emits the edit replacing the two spaces at span `[5, 7)` (and a
newline edit at 10); the first edit's span starts before `rangeStart = 6`, so
it does not lie within `[rangeStart, rangeEnd)` — `addEdit` only checks
overlap, not containment. -/
theorem C7_edit_escapes_range :
    formatJSON "\x7b\"ab\"  : 1\x7d".toList (some ⟨6, 5⟩) ⟨4, true, some "\n"⟩ =
      [⟨5, 2, ""⟩, ⟨10, 0, "\n"⟩] ∧
    (⟨5, 2, ""⟩ : Edit).offset < 6 := by
  decide

theorem C7_edits_overlap_range_and_differ_witness :
    (⟨5, 2, ""⟩ : Edit) ∈
        formatJSON "\x7b\"ab\"  : 1\x7d".toList (some ⟨6, 5⟩) ⟨4, true, some "\n"⟩ ∧
      EditRespects "\x7b\"ab\"  : 1\x7d".toList 6 (6 + 5) ⟨5, 2, ""⟩ :=
  ⟨by decide,
   C7_edits_overlap_range_and_differ "\x7b\"ab\"  : 1\x7d".toList ⟨6, 5⟩
     ⟨4, true, some "\n"⟩ ⟨5, 2, ""⟩ (by decide)⟩


/-- One `tokenize` iteration only ever appends to the frame store: every
branch leaves the store unchanged or extends it through `pushFrame` (the
placeholder branch pops twice, which only reads parent pointers). -/
theorem tokenizeArenaStep_store_extends (comments : Bool) (line : List Char)
    (inserted : Nat) (offsetDelta : Int) (languageId : Option String)
    (it it2 : ArenaIter)
    (h : tokenizeArenaStep comments line inserted offsetDelta languageId it = some it2) :
    ∃ t, it2.store = it.store ++ t := by
  simp only [tokenizeArenaStep] at h
  by_cases h1 : ((scanOne line it.pos).kind == SyntaxKind.eof) = true
  · rw [if_pos h1] at h; cases h
  rw [if_neg h1] at h
  by_cases h2 : ((scanOne line it.pos).pos == it.pos) = true
  · rw [if_pos h2] at h; cases h
  rw [if_neg h2] at h
  rcases hk : (scanOne line it.pos).kind <;>
    simp only [hk, pushFrame] at h <;>
    (try split at h) <;> (try split at h) <;> (try split at h) <;>
    (try split at h) <;> (try split at h) <;>
    (cases h; first
      | exact ⟨_, rfl⟩
      | exact ⟨[], (List.append_nil _).symm⟩)

/-- The whole `tokenize` loop only ever appends to the frame store. -/
theorem tokenizeArenaLoop_store_extends (comments : Bool) (line : List Char)
    (inserted : Nat) (offsetDelta : Int) (languageId : Option String) :
    ∀ (fuel : Nat) (it : ArenaIter),
      ∃ t, (tokenizeArenaLoop comments line inserted offsetDelta languageId fuel it).store =
        it.store ++ t := by
  intro fuel
  induction fuel with
  | zero =>
    intro it
    exact ⟨[], (List.append_nil _).symm⟩
  | succ n ih =>
    intro it
    simp only [tokenizeArenaLoop]
    cases hstep : tokenizeArenaStep comments line inserted offsetDelta languageId it with
    | none =>
      simp only [hstep]
      exact ⟨[], (List.append_nil _).symm⟩
    | some it2 =>
      simp only [hstep]
      obtain ⟨t1, h1⟩ :=
        tokenizeArenaStep_store_extends comments line inserted offsetDelta languageId it it2 hstep
      obtain ⟨t2, h2⟩ := ih it2
      exact ⟨t1 ++ t2, by rw [h2, h1, List.append_assoc]⟩

/-- C8: `tokenize` never mutates its input state.  In the heap-explicit
embedding the input state's fields are read-only values, the returned end
state is freshly constructed, and the run only appends frames to the store:
every frame existing before the call — in particular every `ParentFrame`
reachable from the input state — is bytewise unchanged after it. -/
theorem C8_tokenize_never_mutates_frames (comments : Bool) (line : String)
    (scanError : Option ScanError) (lastWasColon : Bool) (parents : Option Nat)
    (store : FrameStore) (offsetDelta : Int) (languageId : Option String) :
    (tokenizeArena comments line scanError lastWasColon parents store offsetDelta
        languageId).store.take store.length = store := by
  unfold tokenizeArena
  obtain ⟨t, ht⟩ := tokenizeArenaLoop_store_extends _ _ _ _ _ _
    ⟨0, lastWasColon, parents, 0, false, [], scanError, lastWasColon, parents, store⟩
  rw [ht]
  exact List.take_left store t
